import Mathlib

/-!
Shallow embedding of the Stellar Official POS application (`pos_app.py`, single file).

The sale transaction engine lives in `new_sale_page` (validation loop, customer row,
sale header, sale items, stock decrement), the catalog mutations in `products_page`,
and the read side in `sales_record_page` / `dashboard_page`.  SQLite tables are
modelled as Lean lists of records; SQLite `INTEGER` stock is modelled as `Int`
(the schema carries no non-negativity constraint), money (`REAL`) as `ℚ`, and
`datetime.now()` as an explicit `Timestamp` with second granularity, which is all
that `strftime('%Y%m%d%H%M%S')` observes.
-/

/-- Wall-clock instant at second granularity, the granularity used by
`datetime.now().strftime('%Y%m%d%H%M%S')` (pos_app.py line 454) and by
`created_at` comparisons. -/
structure Timestamp where
  year : Nat
  month : Nat
  day : Nat
  hour : Nat
  minute : Nat
  second : Nat
deriving DecidableEq

/-- Field ranges guaranteed for any instant produced by `datetime.now()` in the
years the register can actually run (four-digit year, calendar month/day,
24-hour clock). -/
abbrev Timestamp.Valid (t : Timestamp) : Prop :=
  1000 ≤ t.year ∧ t.year ≤ 9999 ∧ 1 ≤ t.month ∧ t.month ≤ 12 ∧ 1 ≤ t.day ∧ t.day ≤ 31 ∧
    t.hour ≤ 23 ∧ t.minute ≤ 59 ∧ t.second ≤ 59

/-- Decimal digits of `n`, most significant first; fuel-indexed so that it reduces
inside the kernel. -/
def toDigitsAux : Nat → Nat → List Nat
  | 0, _ => []
  | fuel + 1, n => if n < 10 then [n] else toDigitsAux fuel (n / 10) ++ [n % 10]

/-- Decimal digits of `n`, most significant first. -/
def toDigits (n : Nat) : List Nat := toDigitsAux (n + 1) n

/-- Zero-pad the decimal digits of `n` on the left to width `w`, as the fixed-width
fields of `strftime('%Y%m%d%H%M%S')` are. -/
def padDigits (w n : Nat) : List Nat :=
  List.replicate (w - (toDigits n).length) 0 ++ toDigits n

/-- Value of a most-significant-first digit list. -/
def fromDigits (l : List Nat) : Nat := l.foldl (fun a d => 10 * a + d) 0

/-- Digit sequence of `t.strftime('%Y%m%d%H%M%S')`: four-digit year then
two-digit month, day, hour, minute, second. -/
def stampDigits (t : Timestamp) : List Nat :=
  padDigits 4 t.year ++ padDigits 2 t.month ++ padDigits 2 t.day ++
    padDigits 2 t.hour ++ padDigits 2 t.minute ++ padDigits 2 t.second

/-- `datetime.now().strftime('%Y%m%d%H%M%S')` (pos_app.py line 454). -/
def compactStamp (t : Timestamp) : String :=
  String.mk ((stampDigits t).map Nat.digitChar)

/-- `invoice_no = f"INV{datetime.now().strftime('%Y%m%d%H%M%S')}"` (line 454). -/
def invoiceNo (t : Timestamp) : String := "INV" ++ compactStamp t

/-- Row of the `products` table (pos_app.py lines 63-74).  `stock` is a plain
SQLite INTEGER with no constraint, hence `Int`. -/
structure Product where
  code : String
  name : String
  category : String
  size : String
  cost_price : ℚ
  price : ℚ
  stock : Int
  description : String
deriving DecidableEq

/-- One entry of `st.session_state.cart` (lines 392-400): scalar copies taken
from the selected product at add time. -/
structure CartLine where
  product_code : String
  name : String
  size : String
  price : ℚ
  cost_price : ℚ
  qty : Nat
  total : ℚ
deriving DecidableEq

/-- Row of the `customers` table (lines 55-61). -/
structure Customer where
  id : Nat
  name : String
  mobile : String
deriving DecidableEq

/-- Row of the `sales` table (lines 84-94). -/
structure Sale where
  id : Nat
  invoice_no : String
  user : String
  customer_id : Option Nat
  total : ℚ
  total_cost : ℚ
  created_at : Timestamp
deriving DecidableEq

/-- Row of the `sale_items` table (lines 96-108); the autoincrement surrogate id
is never read back and is omitted. -/
structure SaleItem where
  sale_id : Nat
  product_code : String
  name : String
  size : String
  price : ℚ
  cost_price : ℚ
  qty : Nat
  total : ℚ
deriving DecidableEq

/-- The four persisted tables plus the AUTOINCREMENT counters of `customers`
and `sales`. -/
structure DB where
  products : List Product
  customers : List Customer
  sales : List Sale
  sale_items : List SaleItem
  next_customer_id : Nat
  next_sale_id : Nat
deriving DecidableEq

/-- Session state of one operator: the database handle plus the
`st.session_state` fields the sale flow touches. -/
structure SessionState where
  db : DB
  cart : List CartLine
  invoice_ready : Bool
  last_invoice_no : Option String
deriving DecidableEq

/-- Failure reported by the commit handler: `st.error(f"Insufficient stock for
{it['product_code']}")` (line 448). -/
inductive CommitError where
  | insufficientStock (product_code : String)
deriving DecidableEq

/-- `SELECT stock FROM products WHERE code=?` followed by `fetchone()`
(lines 444-445): the first row with that code, if any. -/
def findProduct (products : List Product) (code : String) : Option Product :=
  products.find? (fun p => p.code == code)

/-- One step of the commit-time re-check (lines 446-449): a cart line offends
when its product row is gone (`not r`) or current stock is below the line
quantity (`r['stock'] < it['qty']`). -/
def offendsb (products : List Product) (it : CartLine) : Bool :=
  match findProduct products it.product_code with
  | none => true
  | some p => decide (p.stock < (it.qty : Int))

/-- `UPDATE products SET stock = stock - ? WHERE code=?` (line 473): an
unconditional relative decrement of every row with that code. -/
def decStock (products : List Product) (code : String) (q : Nat) : List Product :=
  products.map (fun p => if p.code = code then { p with stock := p.stock - (q : Int) } else p)

/-- The per-line stock decrements of the commit loop (lines 469-473), applied in
cart order. -/
def decrementAll (products : List Product) (cart : List CartLine) : List Product :=
  cart.foldl (fun acc it => decStock acc it.product_code it.qty) products

/-- One `INSERT INTO sale_items ...` row (lines 470-472), frozen from the cart line. -/
def mkSaleItem (sid : Nat) (it : CartLine) : SaleItem :=
  ⟨sid, it.product_code, it.name, it.size, it.price, it.cost_price, it.qty, it.total⟩

/-- `subtotal = float(dfc["total"].sum())` (line 413). -/
def subtotalOf (cart : List CartLine) : ℚ := (cart.map (fun it => it.total)).sum

/-- `total_cost = sum([it['cost_price']*it['qty'] for it in cart])` (line 464). -/
def totalCostOf (cart : List CartLine) : ℚ :=
  (cart.map (fun it => it.cost_price * (it.qty : ℚ))).sum

/-- Inputs of the "Confirm & Generate Invoice" click: operator, the two customer
text fields, the discount field (UI-constrained to be ≥ 0) and the clock. -/
structure ConfirmArgs where
  user : String
  cust_name : String
  cust_mobile : String
  discount : ℚ
  now : Timestamp
deriving DecidableEq

/-- The "Confirm & Generate Invoice" handler (lines 440-524).  First the
re-validation loop over the cart in order, stopping at the first offending line
with no write performed; otherwise the customer row (when either field is
non-empty, trimmed), the sale header with `grand_total = max(0, subtotal -
discount)` (line 437) and `total_cost`, one sale item per cart line, and the
stock decrement per line.  The cart itself is not cleared (lines 524-525). -/
def confirmSale (st : SessionState) (a : ConfirmArgs) : SessionState × Option CommitError :=
  match st.cart.find? (fun it => offendsb st.db.products it) with
  | some it => (st, some (CommitError.insufficientStock it.product_code))
  | none =>
    let inv := invoiceNo a.now
    let hasCust : Bool := a.cust_name != "" || a.cust_mobile != ""
    let cust_id : Option Nat := if hasCust then some st.db.next_customer_id else none
    let customers' : List Customer :=
      if hasCust then
        st.db.customers ++ [⟨st.db.next_customer_id, a.cust_name.trim, a.cust_mobile.trim⟩]
      else st.db.customers
    let grand_total : ℚ := max 0 (subtotalOf st.cart - a.discount)
    let sale : Sale :=
      ⟨st.db.next_sale_id, inv, a.user, cust_id, grand_total, totalCostOf st.cart, a.now⟩
    ({ db :=
        { products := decrementAll st.db.products st.cart
          customers := customers'
          sales := st.db.sales ++ [sale]
          sale_items := st.db.sale_items ++ st.cart.map (mkSaleItem st.db.next_sale_id)
          next_customer_id := if hasCust then st.db.next_customer_id + 1 else st.db.next_customer_id
          next_sale_id := st.db.next_sale_id + 1 }
       cart := st.cart
       invoice_ready := true
       last_invoice_no := some inv }, none)

/-- The "New Sale" button (lines 556-563): the only place the cart is emptied
after a commit. -/
def newSaleReset (st : SessionState) : SessionState :=
  { st with cart := [], invoice_ready := false, last_invoice_no := none }

/-- The in-place update scan of the add-to-cart handler (lines 384-390): bump the
first line with the given code (`qty += q`, total recomputed from the line's own
frozen price), `none` when no line matches. -/
def bumpFirst (code : String) (q : Nat) : List CartLine → Option (List CartLine)
  | [] => none
  | it :: rest =>
    if it.product_code = code then
      some ({ it with qty := it.qty + q, total := it.price * ((it.qty + q : Nat) : ℚ) } :: rest)
    else (bumpFirst code q rest).map (fun c => it :: c)

/-- The "Add to Cart" handler (lines 378-402): rejected outright when `qty >
selected['stock']` (line 379); otherwise bump the existing line for that code,
or append a new line frozen from the selected product snapshot. -/
def addToCart (cart : List CartLine) (sel : Product) (q : Nat) : List CartLine :=
  if sel.stock < (q : Int) then cart
  else
    match bumpFirst sel.code q cart with
    | some cart' => cart'
    | none =>
      cart ++ [⟨sel.code, sel.name, sel.size, sel.price, sel.cost_price, q, sel.price * (q : ℚ)⟩]

/-- `INSERT OR REPLACE INTO products ...` (lines 311-313): replace the row with
that primary key, or append a fresh row. -/
def upsert (products : List Product) (p : Product) : List Product :=
  if products.any (fun q => q.code == p.code) then
    products.map (fun q => if q.code = p.code then p else q)
  else products ++ [p]

/-- The "Save Product" button viewed from a sale session: only the catalog table
changes. -/
def upsertAction (st : SessionState) (p : Product) : SessionState :=
  { st with db := { st.db with products := upsert st.db.products p } }

/-- Calendar-date key of a timestamp; ISO `DATE(created_at)` strings of valid
timestamps compare exactly as these numbers do. -/
def tsDateKey (t : Timestamp) : Nat := (t.year * 100 + t.month) * 100 + t.day

/-- Full ordering key of a timestamp; ISO `created_at` strings of valid
timestamps compare exactly as these numbers do. -/
def tsKey (t : Timestamp) : Nat :=
  ((((t.year * 100 + t.month) * 100 + t.day) * 100 + t.hour) * 100 + t.minute) * 100 + t.second

/-- A calendar date as entered in the two `st.date_input` pickers (lines 581-583). -/
structure ReportDate where
  year : Nat
  month : Nat
  day : Nat
deriving DecidableEq

/-- Key of a report date, matching `tsDateKey`. -/
def ReportDate.key (d : ReportDate) : Nat := (d.year * 100 + d.month) * 100 + d.day

/-- The range-report query (lines 586-589): `WHERE DATE(s.created_at) BETWEEN ?
AND ? ORDER BY s.created_at` — an inclusive filter on the calendar date followed
by an ascending sort on the creation instant. -/
def rangeReport (sales : List Sale) (d1 d2 : ReportDate) : List Sale :=
  (sales.filter
    (fun s => decide (d1.key ≤ tsDateKey s.created_at ∧ tsDateKey s.created_at ≤ d2.key))).mergeSort
    (fun s1 s2 => decide (tsKey s1.created_at ≤ tsKey s2.created_at))

/-- `SELECT * FROM sale_items WHERE sale_id = (SELECT id FROM sales WHERE
invoice_no=?)` (line 606): the scalar subquery yields the first matching sale's
id, or NULL — and `sale_id = NULL` matches no row. -/
def saleItemsLookup (db : DB) (inv : String) : List SaleItem :=
  match db.sales.find? (fun s => s.invoice_no == inv) with
  | none => []
  | some s => db.sale_items.filter (fun it => it.sale_id == s.id)

/-- Total cart quantity carried against one product code. -/
def lineQty (cart : List CartLine) (c : String) : Nat :=
  ((cart.filter (fun it => it.product_code == c)).map (fun it => it.qty)).sum

/-- Demo catalog row `C001` with two units left. -/
def p1 : Product := ⟨"C001", "Baby Suit - Blue", "Baby", "S", 800, 1200, 2, "Soft cotton baby suit"⟩

/-- Demo catalog row `M001`. -/
def p2 : Product := ⟨"M001", "Gents Shirt - White", "Gents", "M", 900, 1500, 20, "Formal shirt white"⟩

/-- Demo catalog row with zero stock, for the unconditional-decrement counterexample. -/
def p0 : Product := ⟨"C001", "Baby Suit - Blue", "Baby", "S", 800, 1200, 0, "Soft cotton baby suit"⟩

/-- A database holding the two demo products and nothing else. -/
def db0 : DB := ⟨[p1, p2], [], [], [], 1, 1⟩

/-- Cart line asking for three units of `C001` (only two in stock). -/
def line3 : CartLine := ⟨"C001", "Baby Suit - Blue", "S", 1200, 800, 3, 3600⟩

/-- Cart line asking for the two remaining units of `C001`. -/
def line2 : CartLine := ⟨"C001", "Baby Suit - Blue", "S", 1200, 800, 2, 2400⟩

/-- Cart line for a product code that is absent from `db0`. -/
def lineGhost : CartLine := ⟨"X999", "Ghost Jacket", "L", 100, 50, 1, 100⟩

/-- Session about to oversell `C001`. -/
def stOver : SessionState := ⟨db0, [line3], false, none⟩

/-- Session with a satisfiable cart. -/
def stOk : SessionState := ⟨db0, [line2], false, none⟩

/-- Session whose cart references a deleted product. -/
def stGhost : SessionState := ⟨db0, [lineGhost], false, none⟩

/-- Confirm click by `admin`, no customer, no discount, at a fixed instant. -/
def args0 : ConfirmArgs := ⟨"admin", "", "", 0, ⟨2024, 1, 15, 10, 30, 0⟩⟩

/-- A committed sale of two units of `C001`. -/
def sale0 : Sale := ⟨1, "INV20240115103000", "admin", none, 2400, 1600, ⟨2024, 1, 15, 10, 30, 0⟩⟩

/-- The sale item row of `sale0`. -/
def item0 : SaleItem := ⟨1, "C001", "Baby Suit - Blue", "S", 1200, 800, 2, 2400⟩

/-- A database holding `sale0` and its item. -/
def db1 : DB := ⟨[p1, p2], [], [sale0], [item0], 1, 2⟩

/-! ## Digit and timestamp-format lemmas -/

theorem toDigitsAux_of_lt_ten (fuel n : Nat) (h : n < 10) : toDigitsAux (fuel + 1) n = [n] := by
  simp [toDigitsAux, h]

theorem fromDigits_append_singleton (l : List Nat) (d : Nat) :
    fromDigits (l ++ [d]) = 10 * fromDigits l + d := by
  simp [fromDigits, List.foldl_append]

theorem fromDigits_toDigitsAux : ∀ fuel n, n < fuel → fromDigits (toDigitsAux fuel n) = n := by
  intro fuel
  induction fuel with
  | zero => intro n h; omega
  | succ f ih =>
    intro n h
    by_cases h10 : n < 10
    · rw [toDigitsAux_of_lt_ten f n h10]
      simp [fromDigits]
    · have hstep : toDigitsAux (f + 1) n = toDigitsAux f (n / 10) ++ [n % 10] := by
        simp [toDigitsAux, h10]
      rw [hstep, fromDigits_append_singleton, ih (n / 10) (by omega)]
      omega

theorem fromDigits_toDigits (n : Nat) : fromDigits (toDigits n) = n :=
  fromDigits_toDigitsAux (n + 1) n (by omega)

theorem toDigitsAux_length :
    ∀ fuel n k, n < fuel → n < 10 ^ k → 1 ≤ k → (toDigitsAux fuel n).length ≤ k := by
  intro fuel
  induction fuel with
  | zero => intro n k h; omega
  | succ f ih =>
    intro n k h hk h1
    by_cases h10 : n < 10
    · rw [toDigitsAux_of_lt_ten f n h10]; simpa using h1
    · have hstep : toDigitsAux (f + 1) n = toDigitsAux f (n / 10) ++ [n % 10] := by
        simp [toDigitsAux, h10]
      have hk2 : 2 ≤ k := by
        rcases k with _ | _ | k
        · omega
        · exfalso; simp at hk; omega
        · omega
      have hdiv : n / 10 < 10 ^ (k - 1) := by
        have hpow : 10 ^ (k - 1) * 10 = 10 ^ k := by
          rw [← pow_succ]
          congr 1
          omega
        rw [Nat.div_lt_iff_lt_mul (by norm_num)]
        omega
      have := ih (n / 10) (k - 1) (by omega) hdiv (by omega)
      rw [hstep]
      simp only [List.length_append, List.length_cons, List.length_nil]
      omega

theorem toDigits_length_le (n k : Nat) (h : n < 10 ^ k) (hk : 1 ≤ k) :
    (toDigits n).length ≤ k :=
  toDigitsAux_length (n + 1) n k (by omega) h hk

theorem toDigitsAux_lt_ten : ∀ fuel n d, d ∈ toDigitsAux fuel n → d < 10 := by
  intro fuel
  induction fuel with
  | zero => intro n d hd; simp [toDigitsAux] at hd
  | succ f ih =>
    intro n d hd
    by_cases h10 : n < 10
    · rw [toDigitsAux_of_lt_ten f n h10] at hd
      simp at hd
      omega
    · have hstep : toDigitsAux (f + 1) n = toDigitsAux f (n / 10) ++ [n % 10] := by
        simp [toDigitsAux, h10]
      rw [hstep] at hd
      rcases List.mem_append.mp hd with hmem | hmem
      · exact ih (n / 10) d hmem
      · simp at hmem
        omega

theorem padDigits_length (w n : Nat) (h : n < 10 ^ w) (hw : 1 ≤ w) :
    (padDigits w n).length = w := by
  have := toDigits_length_le n w h hw
  simp only [padDigits, List.length_append, List.length_replicate]
  omega

theorem fromDigits_replicate_zero (k : Nat) (l : List Nat) :
    fromDigits (List.replicate k 0 ++ l) = fromDigits l := by
  induction k with
  | zero => simp
  | succ m ih =>
    rw [List.replicate_succ, List.cons_append]
    simpa [fromDigits] using ih

theorem fromDigits_padDigits (w n : Nat) : fromDigits (padDigits w n) = n := by
  rw [padDigits, fromDigits_replicate_zero, fromDigits_toDigits]

theorem padDigits_lt_ten (w n d : Nat) (hd : d ∈ padDigits w n) : d < 10 := by
  rcases List.mem_append.mp hd with hmem | hmem
  · have := List.eq_of_mem_replicate hmem
    omega
  · exact toDigitsAux_lt_ten (n + 1) n d hmem

theorem digitChar_inj_lt : ∀ a < 10, ∀ b < 10, Nat.digitChar a = Nat.digitChar b → a = b := by
  decide

theorem map_digitChar_inj :
    ∀ l1 l2 : List Nat, (∀ d ∈ l1, d < 10) → (∀ d ∈ l2, d < 10) →
      l1.map Nat.digitChar = l2.map Nat.digitChar → l1 = l2 := by
  intro l1
  induction l1 with
  | nil =>
    intro l2 _ _ h
    cases l2 with
    | nil => rfl
    | cons b t => simp at h
  | cons a t ih =>
    intro l2 h1 h2 h
    cases l2 with
    | nil => simp at h
    | cons b t2 =>
      simp only [List.map_cons, List.cons.injEq] at h
      have ha : a = b :=
        digitChar_inj_lt a (h1 a (by simp)) b (h2 b (by simp)) h.1
      have ht : t = t2 :=
        ih t2 (fun d hd => h1 d (by simp [hd])) (fun d hd => h2 d (by simp [hd])) h.2
      rw [ha, ht]

theorem stampDigits_lt_ten (t : Timestamp) (d : Nat) (hd : d ∈ stampDigits t) : d < 10 := by
  simp only [stampDigits, List.mem_append] at hd
  rcases hd with ((((h | h) | h) | h) | h) | h <;> exact padDigits_lt_ten _ _ _ h

theorem stampDigits_inj (t1 t2 : Timestamp) (h1 : t1.Valid) (h2 : t2.Valid)
    (he : stampDigits t1 = stampDigits t2) : t1 = t2 := by
  obtain ⟨hy1, hy1b, hmo1, hmo1b, hd1, hd1b, hh1, hmi1, hs1⟩ := h1
  obtain ⟨hy2, hy2b, hmo2, hmo2b, hd2, hd2b, hh2, hmi2, hs2⟩ := h2
  have hten4 : (10 : Nat) ^ 4 = 10000 := by norm_num
  have hten2 : (10 : Nat) ^ 2 = 100 := by norm_num
  have len4 : ∀ n : Nat, n ≤ 9999 → (padDigits 4 n).length = 4 := by
    intro n hn; exact padDigits_length 4 n (by omega) (by omega)
  have len2 : ∀ n : Nat, n ≤ 59 → (padDigits 2 n).length = 2 := by
    intro n hn; exact padDigits_length 2 n (by omega) (by omega)
  have key : ∀ w a b : Nat, padDigits w a = padDigits w b → a = b := by
    intro w a b hab
    have := congrArg fromDigits hab
    rwa [fromDigits_padDigits, fromDigits_padDigits] at this
  simp only [stampDigits] at he
  rw [List.append_assoc, List.append_assoc, List.append_assoc, List.append_assoc,
    List.append_assoc, List.append_assoc, List.append_assoc, List.append_assoc] at he
  obtain ⟨hy, he⟩ := List.append_inj he (by rw [len4 _ hy1b, len4 _ hy2b])
  obtain ⟨hmo, he⟩ := List.append_inj he (by rw [len2 _ (by omega), len2 _ (by omega)])
  obtain ⟨hd, he⟩ := List.append_inj he (by rw [len2 _ (by omega), len2 _ (by omega)])
  obtain ⟨hh, he⟩ := List.append_inj he (by rw [len2 _ (by omega), len2 _ (by omega)])
  obtain ⟨hmi, hs⟩ := List.append_inj he (by rw [len2 _ (by omega), len2 _ (by omega)])
  cases t1
  cases t2
  simp only [Timestamp.mk.injEq]
  exact ⟨key _ _ _ hy, key _ _ _ hmo, key _ _ _ hd, key _ _ _ hh, key _ _ _ hmi, key _ _ _ hs⟩

theorem invoiceNo_inj (t1 t2 : Timestamp) (h1 : t1.Valid) (h2 : t2.Valid)
    (he : invoiceNo t1 = invoiceNo t2) : t1 = t2 := by
  have hdata := congrArg String.data he
  simp only [invoiceNo, compactStamp, String.data_append] at hdata
  have hmap := List.append_cancel_left hdata
  exact stampDigits_inj t1 t2 h1 h2
    (map_digitChar_inj _ _ (stampDigits_lt_ten t1) (stampDigits_lt_ten t2) hmap)

/-! ## Stock-decrement and lookup lemmas -/

theorem lineQty_nil (c : String) : lineQty [] c = 0 := rfl

theorem lineQty_cons (it : CartLine) (rest : List CartLine) (c : String) :
    lineQty (it :: rest) c = (if it.product_code = c then it.qty else 0) + lineQty rest c := by
  by_cases h : it.product_code = c
  · simp [lineQty, List.filter_cons, h]
  · simp [lineQty, List.filter_cons, h]

theorem lineQty_eq_zero (cart : List CartLine) (c : String)
    (h : ∀ it ∈ cart, it.product_code ≠ c) : lineQty cart c = 0 := by
  induction cart with
  | nil => rfl
  | cons it rest ih =>
    rw [lineQty_cons, if_neg (h it (by simp)), ih (fun x hx => h x (by simp [hx]))]

theorem lineQty_eq_qty (cart : List CartLine) (it : CartLine)
    (hnd : (cart.map (fun x => x.product_code)).Nodup) (hmem : it ∈ cart) :
    lineQty cart it.product_code = it.qty := by
  induction cart with
  | nil => cases hmem
  | cons hd rest ih =>
    rw [List.map_cons, List.nodup_cons] at hnd
    rcases List.mem_cons.mp hmem with heq | hmem'
    · subst heq
      rw [lineQty_cons, if_pos rfl,
        lineQty_eq_zero rest it.product_code
          (fun x hx hcx => hnd.1 (hcx ▸ List.mem_map_of_mem _ hx))]
      omega
    · have hne : hd.product_code ≠ it.product_code := by
        intro hcx
        exact hnd.1 (hcx ▸ List.mem_map_of_mem _ hmem')
      rw [lineQty_cons, if_neg hne, ih hnd.2 hmem']
      omega

theorem decrementAll_eq (cart : List CartLine) (ps : List Product) :
    decrementAll ps cart =
      ps.map (fun p => { p with stock := p.stock - (lineQty cart p.code : Int) }) := by
  induction cart generalizing ps with
  | nil =>
    have hid : ∀ p : Product,
        { p with stock := p.stock - (lineQty [] p.code : Int) } = p := by
      intro p
      simp [lineQty_nil]
    simp only [decrementAll, List.foldl_nil]
    rw [List.map_congr_left (fun p _ => hid p)]
    exact (List.map_id' ps).symm
  | cons it rest ih =>
    have hstep : decrementAll ps (it :: rest) =
        decrementAll (decStock ps it.product_code it.qty) rest := rfl
    rw [hstep, ih, decStock, List.map_map]
    refine List.map_congr_left (fun p _ => ?_)
    by_cases h : p.code = it.product_code
    · simp only [Function.comp_apply, if_pos h, lineQty_cons, h.symm, if_pos rfl]
      congr 1
      push_cast
      ring
    · simp only [Function.comp_apply, if_neg h, lineQty_cons]
      rw [if_neg (fun hx => h hx.symm)]
      congr 1
      push_cast
      ring

theorem find?_key_of_mem_nodup {α β : Type} [DecidableEq β] (key : α → β)
    (l : List α) (x : α) (hmem : x ∈ l) (hnd : (l.map key).Nodup) :
    l.find? (fun y => key y == key x) = some x := by
  induction l with
  | nil => cases hmem
  | cons a rest ih =>
    rw [List.map_cons, List.nodup_cons] at hnd
    by_cases hax : key a = key x
    · have hxa : x = a := by
        rcases List.mem_cons.mp hmem with h | h
        · exact h
        · exact absurd (hax ▸ List.mem_map_of_mem key h) hnd.1
      rw [List.find?_cons_of_pos _ (by simp [hax]), hxa]
    · have hmem' : x ∈ rest := by
        rcases List.mem_cons.mp hmem with h | h
        · exact absurd (h ▸ rfl) hax
        · exact h
      rw [List.find?_cons_of_neg _ (by simp [hax]), ih hmem' hnd.2]

theorem findProduct_of_mem_nodup (ps : List Product) (p : Product) (hmem : p ∈ ps)
    (hnd : (ps.map (fun q => q.code)).Nodup) : findProduct ps p.code = some p := by
  unfold findProduct
  exact find?_key_of_mem_nodup (fun q => q.code) ps p hmem hnd

/-! ## Cart and catalog lemmas -/

theorem bumpFirst_eq_none_iff (code : String) (q : Nat) :
    ∀ cart : List CartLine,
      bumpFirst code q cart = none ↔ ∀ it ∈ cart, it.product_code ≠ code := by
  intro cart
  induction cart with
  | nil => simp [bumpFirst]
  | cons it rest ih =>
    by_cases h : it.product_code = code
    · simp [bumpFirst, h]
    · simp [bumpFirst, h, Option.map_eq_none', ih]

theorem bumpFirst_eq_map (code : String) (q : Nat) :
    ∀ cart : List CartLine, (cart.map (fun it => it.product_code)).Nodup →
      (∃ it ∈ cart, it.product_code = code) →
      bumpFirst code q cart = some (cart.map (fun it =>
        if it.product_code = code then
          { it with qty := it.qty + q, total := it.price * ((it.qty + q : Nat) : ℚ) }
        else it)) := by
  intro cart
  induction cart with
  | nil => rintro _ ⟨it, hit, _⟩; cases hit
  | cons hd rest ih =>
    intro hnd hex
    rw [List.map_cons, List.nodup_cons] at hnd
    by_cases h : hd.product_code = code
    · have hnot : ∀ x ∈ rest, x.product_code ≠ code := by
        intro x hx hcx
        exact hnd.1 ((h.trans hcx.symm) ▸ List.mem_map_of_mem _ hx)
      have hrest : rest.map (fun it =>
          if it.product_code = code then
            { it with qty := it.qty + q, total := it.price * ((it.qty + q : Nat) : ℚ) }
          else it) = rest := by
        rw [List.map_congr_left (fun x hx => if_neg (hnot x hx))]
        exact List.map_id' rest
      simp only [bumpFirst, if_pos h, List.map_cons, hrest]
    · have hex' : ∃ x ∈ rest, x.product_code = code := by
        rcases hex with ⟨x, hx, hcx⟩
        rcases List.mem_cons.mp hx with rfl | hx'
        · exact absurd hcx h
        · exact ⟨x, hx', hcx⟩
      simp only [bumpFirst, if_neg h, ih hnd.2 hex', Option.map_some', List.map_cons]

theorem upsert_mem (ps : List Product) (p : Product) : p ∈ upsert ps p := by
  unfold upsert
  by_cases h : ps.any (fun q => q.code == p.code)
  · rw [if_pos h]
    rcases List.any_eq_true.mp h with ⟨x, hx, hxc⟩
    exact List.mem_map.mpr ⟨x, hx, if_pos (by simpa using hxc)⟩
  · rw [if_neg h]
    simp

/-! ## Claim theorems -/

/-- C1: if at commit time some cart line's quantity exceeds its product's current
stock, the commit fails with `InsufficientStock` naming the first offending line
in cart order, and the session state — products, sales, sale items, customers and
the cart — is returned unchanged. -/
theorem commit_fails_atomically_on_insufficient_stock (st : SessionState) (a : ConfirmArgs)
    (h : ∃ it ∈ st.cart, ∃ p ∈ st.db.products,
      findProduct st.db.products it.product_code = some p ∧ p.stock < (it.qty : Int)) :
    ∃ it0, st.cart.find? (fun it => offendsb st.db.products it) = some it0 ∧
      offendsb st.db.products it0 = true ∧
      confirmSale st a = (st, some (CommitError.insufficientStock it0.product_code)) := by
  obtain ⟨it, hmem, p, -, hfp, hlt⟩ := h
  have hoff : offendsb st.db.products it = true := by
    simp [offendsb, hfp, hlt]
  have hsome : (st.cart.find? (fun x => offendsb st.db.products x)).isSome := by
    rw [List.find?_isSome]
    exact ⟨it, hmem, hoff⟩
  obtain ⟨it0, h0⟩ := Option.isSome_iff_exists.mp hsome
  refine ⟨it0, h0, List.find?_some h0, ?_⟩
  simp [confirmSale, h0]

theorem commit_fails_atomically_on_insufficient_stock_witness :
    ∃ it0, stOver.cart.find? (fun it => offendsb stOver.db.products it) = some it0 ∧
      offendsb stOver.db.products it0 = true ∧
      confirmSale stOver args0 = (stOver, some (CommitError.insufficientStock it0.product_code)) :=
  commit_fails_atomically_on_insufficient_stock stOver args0 (by decide)

/-- C2 counterexample: the per-line decrement performed by commit is the
unconditional `UPDATE products SET stock = stock - ?`; applied where stock is
already 0 it neither fails nor leaves the value unchanged — stock becomes −1. -/
theorem adjust_without_recheck_counterexample :
    (decStock [p0] "C001" 1).map (fun p => p.stock) = [-1] ∧
      decStock [p0] "C001" 1 ≠ [p0] := by
  constructor
  · decide
  · decide

/-- C2 (amended): the decrement itself never re-checks, but validation of the
whole cart immediately precedes the decrements in the same handler, so any
successful commit from a state with non-negative stocks, a duplicate-free cart
and a duplicate-free product table leaves every stock non-negative. -/
theorem commit_preserves_nonneg_stock (st : SessionState) (a : ConfirmArgs)
    (hnn : ∀ p ∈ st.db.products, 0 ≤ p.stock)
    (hcart : (st.cart.map (fun it => it.product_code)).Nodup)
    (hpk : (st.db.products.map (fun p => p.code)).Nodup)
    (hok : (confirmSale st a).2 = none) :
    ∀ p ∈ (confirmSale st a).1.db.products, 0 ≤ p.stock := by
  cases hfind : st.cart.find? (fun it => offendsb st.db.products it) with
  | some it => simp [confirmSale, hfind] at hok
  | none =>
    have hall := List.find?_eq_none.mp hfind
    intro p hp
    simp only [confirmSale, hfind] at hp
    rw [decrementAll_eq] at hp
    obtain ⟨p0, hp0, rfl⟩ := List.mem_map.mp hp
    by_cases hex : ∃ it ∈ st.cart, it.product_code = p0.code
    · obtain ⟨it, hit, hc⟩ := hex
      have hq : lineQty st.cart p0.code = it.qty := hc ▸ lineQty_eq_qty st.cart it hcart hit
      have hoff := hall it hit
      have hfp : findProduct st.db.products it.product_code = some p0 := by
        rw [hc]
        exact findProduct_of_mem_nodup _ p0 hp0 hpk
      simp only [offendsb, hfp, decide_eq_true_eq] at hoff
      simp only [hq]
      omega
    · push_neg at hex
      rw [lineQty_eq_zero st.cart p0.code hex]
      have := hnn p0 hp0
      simp only []
      omega

theorem commit_preserves_nonneg_stock_witness : 0 ≤ p0.stock :=
  commit_preserves_nonneg_stock stOk args0 (by decide) (by decide) (by decide) (by decide)
    p0 (by decide)

/-- C3: a successful commit records a sale whose total is the clamped
`max(0, subtotal − discount)` and whose total cost is the sum of frozen cost
price times quantity over the cart; a discount exceeding the subtotal is not an
error but clamps the total to 0. -/
theorem sale_totals_reconcile (st : SessionState) (a : ConfirmArgs)
    (_hd : 0 ≤ a.discount) (hok : (confirmSale st a).2 = none) :
    ∃ s : Sale, (confirmSale st a).1.db.sales = st.db.sales ++ [s] ∧
      s.total = max 0 (subtotalOf st.cart - a.discount) ∧
      s.total_cost = totalCostOf st.cart ∧
      (subtotalOf st.cart < a.discount → s.total = 0) := by
  cases hfind : st.cart.find? (fun it => offendsb st.db.products it) with
  | some it => simp [confirmSale, hfind] at hok
  | none =>
    simp only [confirmSale, hfind]
    refine ⟨_, rfl, rfl, rfl, fun hlt => ?_⟩
    exact max_eq_left (by linarith)

theorem sale_totals_reconcile_witness :
    ∃ s : Sale, (confirmSale stOk args0).1.db.sales = stOk.db.sales ++ [s] ∧
      s.total = max 0 (subtotalOf stOk.cart - args0.discount) ∧
      s.total_cost = totalCostOf stOk.cart ∧
      (subtotalOf stOk.cart < args0.discount → s.total = 0) :=
  sale_totals_reconcile stOk args0 (by decide) (by decide)

/-- Catalog row used to change the price of `C001` after it entered a cart. -/
def pRepriced : Product := { p1 with price := 200 }

/-- C4: a catalog upsert — here repricing the very product a cart line froze —
leaves the cart untouched: the line keeps its snapshot price and total, while
the new catalog row does land in the products table. -/
theorem upsert_leaves_cart_snapshots (st : SessionState) (pnew : Product) (it : CartLine)
    (hmem : it ∈ st.cart) (htot : it.total = it.price * (it.qty : ℚ)) :
    (upsertAction st pnew).cart = st.cart ∧ it ∈ (upsertAction st pnew).cart ∧
      it.total = it.price * (it.qty : ℚ) ∧ pnew ∈ (upsertAction st pnew).db.products :=
  ⟨rfl, hmem, htot, upsert_mem st.db.products pnew⟩

theorem upsert_leaves_cart_snapshots_witness :
    (upsertAction stOk pRepriced).cart = stOk.cart ∧ line2 ∈ (upsertAction stOk pRepriced).cart ∧
      line2.total = line2.price * (line2.qty : ℚ) ∧
      pRepriced ∈ (upsertAction stOk pRepriced).db.products :=
  upsert_leaves_cart_snapshots stOk pRepriced line2 (by decide) (by norm_num [line2])

/-- C5: adding `q ≥ 1` units of a selected product (within its snapshot stock)
keeps at most one line per product code: an existing line for that code is
bumped in place — quantity increased by `q`, total recomputed from the line's
own frozen price — and otherwise exactly one new frozen line is appended. -/
theorem cart_add_one_line_per_code (cart : List CartLine) (sel : Product) (q : Nat)
    (_hq : 1 ≤ q) (hs : (q : Int) ≤ sel.stock)
    (hnd : (cart.map (fun it => it.product_code)).Nodup) :
    ((addToCart cart sel q).map (fun it => it.product_code)).Nodup ∧
    ((∃ it ∈ cart, it.product_code = sel.code) →
      addToCart cart sel q = cart.map (fun it =>
        if it.product_code = sel.code then
          { it with qty := it.qty + q, total := it.price * ((it.qty + q : Nat) : ℚ) }
        else it)) ∧
    ((∀ it ∈ cart, it.product_code ≠ sel.code) →
      addToCart cart sel q =
        cart ++ [⟨sel.code, sel.name, sel.size, sel.price, sel.cost_price, q,
          sel.price * (q : ℚ)⟩]) := by
  have hguard : ¬ sel.stock < (q : Int) := not_lt.mpr hs
  by_cases hex : ∃ it ∈ cart, it.product_code = sel.code
  · have hbump := bumpFirst_eq_map sel.code q cart hnd hex
    have heq : addToCart cart sel q = cart.map (fun it =>
        if it.product_code = sel.code then
          { it with qty := it.qty + q, total := it.price * ((it.qty + q : Nat) : ℚ) }
        else it) := by
      simp [addToCart, hguard, hbump]
    refine ⟨?_, fun _ => heq, fun hnone => ?_⟩
    · rw [heq, List.map_map]
      have hcodes : ∀ x ∈ cart, ((fun it => it.product_code) ∘ (fun it =>
          if it.product_code = sel.code then
            { it with qty := it.qty + q, total := it.price * ((it.qty + q : Nat) : ℚ) }
          else it)) x = x.product_code := by
        intro x _
        by_cases hc : x.product_code = sel.code <;> simp [hc]
      rw [List.map_congr_left hcodes]
      exact hnd
    · obtain ⟨it, hit, hc⟩ := hex
      exact absurd hc (hnone it hit)
  · have hnone : ∀ it ∈ cart, it.product_code ≠ sel.code := by
      push_neg at hex
      exact hex
    have hb : bumpFirst sel.code q cart = none := (bumpFirst_eq_none_iff _ _ _).mpr hnone
    have heq : addToCart cart sel q =
        cart ++ [⟨sel.code, sel.name, sel.size, sel.price, sel.cost_price, q,
          sel.price * (q : ℚ)⟩] := by
      simp [addToCart, hguard, hb]
    refine ⟨?_, fun hex' => absurd hex' hex, fun _ => heq⟩
    rw [heq, List.map_append]
    rw [List.nodup_append]
    refine ⟨hnd, by simp, ?_⟩
    intro c hc1 hc2
    simp only [List.map_cons, List.map_nil, List.mem_singleton] at hc2
    obtain ⟨it, hit, hcit⟩ := List.mem_map.mp hc1
    exact hnone it hit (hcit.trans hc2)

theorem cart_add_one_line_per_code_witness :
    ((addToCart [line2] p1 1).map (fun it => it.product_code)).Nodup ∧
    ((∃ it ∈ [line2], it.product_code = p1.code) →
      addToCart [line2] p1 1 = [line2].map (fun it =>
        if it.product_code = p1.code then
          { it with qty := it.qty + 1, total := it.price * ((it.qty + 1 : Nat) : ℚ) }
        else it)) ∧
    ((∀ it ∈ [line2], it.product_code ≠ p1.code) →
      addToCart [line2] p1 1 =
        [line2] ++ [⟨p1.code, p1.name, p1.size, p1.price, p1.cost_price, 1,
          p1.price * (1 : ℚ)⟩]) :=
  cart_add_one_line_per_code [line2] p1 1 (by decide) (by decide) (by decide)

/-- Commit instant of the worked example. -/
def tA : Timestamp := ⟨2024, 1, 15, 10, 30, 0⟩

/-- Commit instant one second later. -/
def tB : Timestamp := ⟨2024, 1, 15, 10, 30, 1⟩

/-- C6: the invoice identifier is the literal string `INV` followed by the
commit instant formatted compactly down to the second, and two commits whose
instants differ at second granularity get distinct invoice numbers. -/
theorem invoice_number_format_and_distinct (t1 t2 : Timestamp)
    (h1 : t1.Valid) (h2 : t2.Valid) (hne : t1 ≠ t2) :
    invoiceNo t1 = "INV" ++ compactStamp t1 ∧ invoiceNo t1 ≠ invoiceNo t2 ∧
    (∀ (st : SessionState) (a : ConfirmArgs), (confirmSale st a).2 = none →
      ∃ s, (confirmSale st a).1.db.sales = st.db.sales ++ [s] ∧
        s.invoice_no = invoiceNo a.now) := by
  refine ⟨rfl, fun he => hne (invoiceNo_inj t1 t2 h1 h2 he), fun st a hok => ?_⟩
  cases hfind : st.cart.find? (fun it => offendsb st.db.products it) with
  | some it => simp [confirmSale, hfind] at hok
  | none =>
    simp only [confirmSale, hfind]
    exact ⟨_, rfl, rfl⟩

theorem invoice_number_format_and_distinct_witness :
    invoiceNo tA = "INV" ++ compactStamp tA ∧ invoiceNo tA ≠ invoiceNo tB ∧
      (∃ s, (confirmSale stOk args0).1.db.sales = stOk.db.sales ++ [s] ∧
        s.invoice_no = invoiceNo args0.now) := by
  obtain ⟨hfmt, hne, hcommit⟩ :=
    invoice_number_format_and_distinct tA tB (by decide) (by decide) (by decide)
  exact ⟨hfmt, hne, hcommit stOk args0 (by decide)⟩

/-- C7: the range report returns exactly the sales whose creation calendar date
lies in the closed interval between the two picked dates — as a membership
characterisation and as a permutation of the filtered table — and it is ordered
ascending by creation instant. -/
theorem range_report_exact_and_sorted (sales : List Sale) (d1 d2 : ReportDate) :
    (∀ s, s ∈ rangeReport sales d1 d2 ↔
      s ∈ sales ∧ d1.key ≤ tsDateKey s.created_at ∧ tsDateKey s.created_at ≤ d2.key) ∧
    List.Perm (rangeReport sales d1 d2)
      (sales.filter (fun s =>
        decide (d1.key ≤ tsDateKey s.created_at ∧ tsDateKey s.created_at ≤ d2.key))) ∧
    (rangeReport sales d1 d2).Pairwise
      (fun s1 s2 => tsKey s1.created_at ≤ tsKey s2.created_at) := by
  refine ⟨?_, ?_, ?_⟩
  · intro s
    simp [rangeReport, List.mem_filter]
  · exact List.mergeSort_perm _ _
  · refine List.Pairwise.imp (fun h => of_decide_eq_true h) ?_
    exact List.sorted_mergeSort
      (by intro a b c hab hbc; simp only [decide_eq_true_eq] at *; omega)
      (by intro a b; simp only [Bool.or_eq_true, decide_eq_true_eq]; omega) _

/-- C8: the sale-items lookup returns exactly the item rows of the sale carrying
the given invoice number, and the empty list — not an error — when no sale has
that invoice number. -/
theorem sale_items_lookup_exact (db : DB) (inv : String) :
    ((∀ s ∈ db.sales, s.invoice_no ≠ inv) → saleItemsLookup db inv = []) ∧
    (∀ s ∈ db.sales, s.invoice_no = inv →
      (db.sales.map (fun s0 => s0.invoice_no)).Nodup →
      saleItemsLookup db inv = db.sale_items.filter (fun it => it.sale_id == s.id)) := by
  constructor
  · intro hnone
    have hfind : db.sales.find? (fun s => s.invoice_no == inv) = none := by
      rw [List.find?_eq_none]
      intro s hs
      simpa using hnone s hs
    simp [saleItemsLookup, hfind]
  · intro s hs hinv hnd
    subst hinv
    have hfind : db.sales.find? (fun s0 => s0.invoice_no == s.invoice_no) = some s :=
      find?_key_of_mem_nodup (fun s0 => s0.invoice_no) db.sales s hs hnd
    simp [saleItemsLookup, hfind]

theorem sale_items_lookup_exact_witness :
    saleItemsLookup db1 "INVNONE" = [] ∧
      saleItemsLookup db1 "INV20240115103000" =
        db1.sale_items.filter (fun it => it.sale_id == sale0.id) :=
  ⟨(sale_items_lookup_exact db1 "INVNONE").1 (by decide),
   (sale_items_lookup_exact db1 "INV20240115103000").2 sale0 (by decide) (by decide) (by decide)⟩

/-- C9: commit never clears or mutates the cart — the session cart after the
handler is the one from before, on success and on failure alike — and the cart
is emptied only by the separate explicit "New Sale" action. -/
theorem commit_leaves_cart_untouched (st : SessionState) (a : ConfirmArgs) :
    ((confirmSale st a).1).cart = st.cart ∧ (newSaleReset st).cart = [] := by
  constructor
  · cases hfind : st.cart.find? (fun it => offendsb st.db.products it) <;>
      simp [confirmSale, hfind]
  · rfl

/-- C10: a cart line whose product code no longer exists in the catalog offends
the commit-time re-check exactly like an out-of-stock line: the commit fails
with `InsufficientStock` — naming that line's code when it is the first offender
— and the session state is returned unchanged. -/
theorem commit_treats_missing_product_as_out_of_stock (st : SessionState) (a : ConfirmArgs)
    (it : CartLine) (hmem : it ∈ st.cart)
    (hmiss : findProduct st.db.products it.product_code = none) :
    offendsb st.db.products it = true ∧
    (∃ c, confirmSale st a = (st, some (CommitError.insufficientStock c))) ∧
    (st.cart.find? (fun x => offendsb st.db.products x) = some it →
      confirmSale st a = (st, some (CommitError.insufficientStock it.product_code))) := by
  have hoff : offendsb st.db.products it = true := by
    simp [offendsb, hmiss]
  have hsome : (st.cart.find? (fun x => offendsb st.db.products x)).isSome := by
    rw [List.find?_isSome]
    exact ⟨it, hmem, hoff⟩
  obtain ⟨it0, h0⟩ := Option.isSome_iff_exists.mp hsome
  refine ⟨hoff, ⟨it0.product_code, by simp [confirmSale, h0]⟩, fun hfirst => ?_⟩
  simp [confirmSale, hfirst]

theorem commit_treats_missing_product_as_out_of_stock_witness :
    offendsb stGhost.db.products lineGhost = true ∧
    (∃ c, confirmSale stGhost args0 = (stGhost, some (CommitError.insufficientStock c))) ∧
    (stGhost.cart.find? (fun x => offendsb stGhost.db.products x) = some lineGhost →
      confirmSale stGhost args0 =
        (stGhost, some (CommitError.insufficientStock lineGhost.product_code))) :=
  commit_treats_missing_product_as_out_of_stock stGhost args0 lineGhost (by decide) (by decide)
